import Mathlib

/-!
Verification of the relevance-scoring, ranking, persistence and publishing
pipeline of the AI news digest bot.  The Python sources are embedded
shallowly: dictionaries become association lists with insert-or-overwrite
semantics, `str.lower` becomes a character map, substring tests (`in`)
become an explicit scan, and the `urllib.parse.urlparse` network-location
extraction is modelled including its mismatched-bracket `ValueError`.
-/

deriving instance DecidableEq for Except

namespace NewsDigest

/-! ## Generic string helpers -/

/-- Does the first list occur as a leading segment of the second? -/
def listStartsWith : List Char → List Char → Bool
  | [], _ => true
  | _ :: _, [] => false
  | p :: ps, c :: cs => p == c && listStartsWith ps cs

/-- Does `n` occur as a contiguous segment of the haystack?  Models the
Python `in` operator on strings. -/
def subOf (n : List Char) : List Char → Bool
  | [] => n.isEmpty
  | c :: t => listStartsWith n (c :: t) || subOf n t

/-- Python `needle in haystack` for strings. -/
def strContains (haystack needle : String) : Bool :=
  subOf needle.data haystack.data

/-- Python `p` occurs at the start of `s` (used to recognise breakdown
labels of a given category). -/
def strStartsWith (p s : String) : Bool :=
  listStartsWith p.data s.data

/-- Models Python `str.lower()` (ASCII case folding; the scoring tables
are all ASCII). -/
def strLower (s : String) : String :=
  String.mk (s.data.map Char.toLower)

/-! ## Python dict as an association list -/

/-- Labels of a breakdown dictionary, in insertion order. -/
def keys (d : List (String × Int)) : List String :=
  d.map Prod.fst

/-- Sum of the values of a breakdown dictionary. -/
def sumVals (d : List (String × Int)) : Int :=
  (d.map Prod.snd).sum

/-- Python `d[k] = v`: overwrite in place when the key is present,
otherwise append at the end (insertion order preserved). -/
def dictInsert (d : List (String × Int)) (k : String) (v : Int) : List (String × Int) :=
  if d.any (fun p => p.1 == k) then
    d.map (fun p => if p.1 == k then (k, v) else p)
  else
    d ++ [(k, v)]

/-- `score += v; breakdown[k] = v`, the single mutation step of
`calculate_relevance_score`. -/
def addEntry (st : Int × List (String × Int)) (k : String) (v : Int) :
    Int × List (String × Int) :=
  (st.1 + v, dictInsert st.2 k v)

/-! ## urlparse network-location model

Models the scheme/netloc split of CPython `urllib.parse.urlsplit`, which
`urlparse(article_url).netloc` relies on, including the `ValueError`
("Invalid IPv6 URL") raised when the network location contains a square
bracket without its partner.  Version-specific preprocessing (control
character stripping) and validation that only applies to non-ASCII or
fully bracketed hosts is not modelled; the totality theorems below are
therefore stated for bracket-free ASCII URLs only. -/

/-- Characters allowed inside a URL scheme. -/
def schemeChar (c : Char) : Bool :=
  c.isAlphanum || c == '+' || c == '-' || c == '.'

/-- Drop a leading `scheme:` if present (CPython `urlsplit` scheme split). -/
def splitScheme (url : List Char) : List Char :=
  match url.findIdx? (fun c => c == ':') with
  | none => url
  | some i =>
    if 0 < i && (url.headD ' ').isAlpha && (url.take i).all schemeChar then
      url.drop (i + 1)
    else
      url

/-- The network location of a URL, or the `ValueError` message `urlsplit`
raises on a mismatched bracket. -/
def netlocOf (url : String) : Except String String :=
  let u := splitScheme url.data
  if u.take 2 = ['/', '/'] then
    let netloc := (u.drop 2).takeWhile (fun c => !(c == '/' || c == '?' || c == '#'))
    if (netloc.any (fun c => c == '[') && !(netloc.any (fun c => c == ']'))) ||
       (netloc.any (fun c => c == ']') && !(netloc.any (fun c => c == '['))) then
      Except.error "Invalid IPv6 URL"
    else
      Except.ok (String.mk netloc)
  else
    Except.ok ""

/-! ## The relevance scorer (`multi_source_ai_digest.calculate_relevance_score`) -/

/-- High-value AI keywords, in source order. -/
def high_value_keywords : List (String × Int) :=
  [("openai", 20), ("chatgpt", 20), ("gpt", 15), ("claude", 15),
   ("gemini", 15), ("llm", 12), ("transformer", 12), ("neural", 10),
   ("breakthrough", 15), ("launch", 10), ("release", 8), ("announces", 8)]

/-- Medium-value AI keywords, in source order. -/
def medium_value_keywords : List (String × Int) :=
  [("artificial-intelligence", 10), ("machine-learning", 10), ("deep-learning", 10),
   ("automation", 8), ("robot", 8), ("algorithm", 6), ("data", 4),
   ("startup", 5), ("funding", 6), ("investment", 6), ("acquisition", 8)]

/-- AI company names, in source order. -/
def ai_companies : List (String × Int) :=
  [("google", 10), ("microsoft", 10), ("amazon", 8), ("meta", 8), ("facebook", 8),
   ("nvidia", 12), ("anthropic", 15), ("mistral", 12), ("huggingface", 10),
   ("tesla", 8), ("apple", 8), ("samsung", 6), ("intel", 6)]

/-- Technology/research terms, in source order. -/
def tech_terms : List (String × Int) :=
  [("model", 4), ("training", 5), ("dataset", 4), ("performance", 4),
   ("research", 5), ("paper", 4), ("study", 4), ("experiment", 4)]

/-- Source-quality bonuses, in source order (scanned first-match-wins). -/
def source_bonus : List (String × Int) :=
  [("techcrunch.com", 8), ("wired.com", 10), ("theverge.com", 8),
   ("venturebeat.com", 7), ("technologyreview.com", 12), ("arstechnica.com", 9),
   ("zdnet.com", 6), ("forbes.com", 7), ("bloomberg.com", 10)]

/-- One conditional scoring update for one keyword of one table. -/
def scanStep (cat content : String) (st : Int × List (String × Int))
    (kv : String × Int) : Int × List (String × Int) :=
  if strContains content kv.1 then addEntry st (cat ++ ": " ++ kv.1) kv.2 else st

/-- One `for keyword, points in table.items()` loop of the scorer. -/
def scanTable (cat : String) (table : List (String × Int)) (content : String)
    (st : Int × List (String × Int)) : Int × List (String × Int) :=
  table.foldl (scanStep cat content) st

/-- First matching `(domain-substring, bonus)` pair (the loop with `break`). -/
def firstSource (domain : String) : List (String × Int) → Option (String × Int)
  | [] => none
  | sb :: rest => if strContains domain sb.1 then some sb else firstSource domain rest

/-- Keyword-table and recency portion of the scorer: everything computed
before the `urlparse` call.  `current_year` is `datetime.now().year`. -/
def scoreCore (current_year : Nat) (article_url title : String) :
    Int × List (String × Int) :=
  let content_to_analyze := strLower (article_url ++ " " ++ title)
  let st := scanTable "High-value" high_value_keywords content_to_analyze (0, [])
  let st := scanTable "Medium-value" medium_value_keywords content_to_analyze st
  let st := scanTable "Company" ai_companies content_to_analyze st
  let st := scanTable "Tech" tech_terms content_to_analyze st
  if strContains article_url (toString current_year) then
    addEntry st "Current year" 8
  else if strContains article_url (toString (current_year - 1)) then
    addEntry st "Recent year" 4
  else
    st

/-- Source-quality bonus and base relevance, applied after the netloc is
extracted. -/
def scoreFinish (st : Int × List (String × Int)) (netloc : String) :
    Int × List (String × Int) :=
  let domain := strLower netloc
  let st :=
    match firstSource domain source_bonus with
    | some sb => addEntry st ("Source: " ++ sb.1) sb.2
    | none => st
  addEntry st "Base AI relevance" 5

/-- `calculate_relevance_score(article_url, title)` returning
`(score, breakdown)`, or the `ValueError` message propagated out of
`urlparse`. -/
def calculate_relevance_score (current_year : Nat) (article_url title : String) :
    Except String (Int × List (String × Int)) :=
  match netlocOf article_url with
  | Except.error e => Except.error e
  | Except.ok netloc =>
    Except.ok (scoreFinish (scoreCore current_year article_url title) netloc)

/-! ## Breakdown-dictionary lemmas -/

lemma any_key_eq_false {d : List (String × Int)} {k : String} (h : k ∉ keys d) :
    d.any (fun p => p.1 == k) = false := by
  rw [List.any_eq_false]
  intro p hp hpk
  exact h (List.mem_map.mpr ⟨p, hp, by simpa using hpk⟩)

lemma dictInsert_fresh {d : List (String × Int)} {k : String} (v : Int)
    (h : k ∉ keys d) : dictInsert d k v = d ++ [(k, v)] := by
  simp [dictInsert, any_key_eq_false h]

lemma addEntry_fresh (st : Int × List (String × Int)) {k : String} (v : Int)
    (h : k ∉ keys st.2) : addEntry st k v = (st.1 + v, st.2 ++ [(k, v)]) := by
  simp [addEntry, dictInsert_fresh v h]

lemma sumVals_append (d e : List (String × Int)) :
    sumVals (d ++ e) = sumVals d + sumVals e := by
  simp [sumVals]

lemma sumVals_single (k : String) (v : Int) : sumVals [(k, v)] = v := by
  simp [sumVals]

lemma keys_append (d e : List (String × Int)) : keys (d ++ e) = keys d ++ keys e := by
  simp [keys]

/-- The breakdown labels a keyword table can generate. -/
def catKeys (cat : String) (table : List (String × Int)) : List String :=
  table.map (fun kv => cat ++ ": " ++ kv.1)

lemma scanTable_spec (cat content : String) :
    ∀ (table : List (String × Int)) (st : Int × List (String × Int)),
      st.1 = sumVals st.2 →
      (∀ k ∈ catKeys cat table, k ∉ keys st.2) →
      (catKeys cat table).Nodup →
      (scanTable cat table content st).1 = sumVals (scanTable cat table content st).2 ∧
      ∀ k ∈ keys (scanTable cat table content st).2,
        k ∈ keys st.2 ∨ k ∈ catKeys cat table := by
  intro table
  induction table with
  | nil =>
    intro st hsum _ _
    exact ⟨hsum, fun k hk => Or.inl hk⟩
  | cons kv rest ih =>
    intro st hsum hfresh hnd
    have hck : catKeys cat (kv :: rest) = (cat ++ ": " ++ kv.1) :: catKeys cat rest := rfl
    rw [hck] at hfresh hnd
    have hnd' : (catKeys cat rest).Nodup := (List.nodup_cons.mp hnd).2
    have hne : (cat ++ ": " ++ kv.1) ∉ catKeys cat rest := (List.nodup_cons.mp hnd).1
    have hunf : scanTable cat (kv :: rest) content st
        = scanTable cat rest content (scanStep cat content st kv) := rfl
    by_cases hc : strContains content kv.1 = true
    · have hstep : scanStep cat content st kv
          = (st.1 + kv.2, st.2 ++ [(cat ++ ": " ++ kv.1, kv.2)]) := by
        rw [scanStep, if_pos hc,
          addEntry_fresh st kv.2 (hfresh _ (List.mem_cons_self _ _))]
      have hsum' : (scanStep cat content st kv).1 = sumVals (scanStep cat content st kv).2 := by
        rw [hstep]
        simp [sumVals_append, sumVals_single, hsum]
      have hkeys' : keys (scanStep cat content st kv).2
          = keys st.2 ++ [cat ++ ": " ++ kv.1] := by
        rw [hstep, keys_append]
        rfl
      have hfresh' : ∀ k ∈ catKeys cat rest, k ∉ keys (scanStep cat content st kv).2 := by
        intro k hk
        rw [hkeys']
        simp only [List.mem_append, List.mem_singleton]
        rintro (h1 | h2)
        · exact hfresh k (List.mem_cons_of_mem _ hk) h1
        · exact hne (h2 ▸ hk)
      obtain ⟨hs, hp⟩ := ih (scanStep cat content st kv) hsum' hfresh' hnd'
      refine ⟨hunf ▸ hs, fun k hk => ?_⟩
      rcases hp k (hunf ▸ hk) with h1 | h1
      · rw [hkeys'] at h1
        rcases List.mem_append.mp h1 with h2 | h2
        · exact Or.inl h2
        · refine Or.inr ?_
          rw [hck, List.mem_singleton.mp h2]
          exact List.mem_cons_self _ _
      · refine Or.inr ?_
        rw [hck]
        exact List.mem_cons_of_mem _ h1
    · have hstep : scanStep cat content st kv = st := by
        rw [scanStep, if_neg hc]
      obtain ⟨hs, hp⟩ := ih (scanStep cat content st kv)
        (by rw [hstep]; exact hsum)
        (fun k hk => by rw [hstep]; exact hfresh k (List.mem_cons_of_mem _ hk)) hnd'
      refine ⟨hunf ▸ hs, fun k hk => ?_⟩
      rcases hp k (hunf ▸ hk) with h1 | h1
      · rw [hstep] at h1
        exact Or.inl h1
      · refine Or.inr ?_
        rw [hck]
        exact List.mem_cons_of_mem _ h1

lemma scanTable_mono (cat content : String) :
    ∀ (table : List (String × Int)) (st : Int × List (String × Int)),
      (∀ kv ∈ table, 0 ≤ kv.2) →
      st.1 ≤ (scanTable cat table content st).1 := by
  intro table
  induction table with
  | nil => intro st _; exact le_refl _
  | cons kv rest ih =>
    intro st hpos
    have hunf : scanTable cat (kv :: rest) content st
        = scanTable cat rest content (scanStep cat content st kv) := rfl
    rw [hunf]
    refine le_trans ?_ (ih _ (fun kv' h => hpos kv' (List.mem_cons_of_mem _ h)))
    by_cases hc : strContains content kv.1 = true
    · have : (scanStep cat content st kv).1 = st.1 + kv.2 := by
        rw [scanStep, if_pos hc]
        rfl
      rw [this]
      have := hpos kv (List.mem_cons_self _ _)
      omega
    · rw [scanStep, if_neg hc]

lemma firstSource_mem {domain : String} :
    ∀ {l : List (String × Int)} {sb : String × Int},
      firstSource domain l = some sb → sb ∈ l := by
  intro l
  induction l with
  | nil => intro sb h; simp [firstSource] at h
  | cons x rest ih =>
    intro sb h
    by_cases hc : strContains domain x.1 = true
    · rw [firstSource, if_pos hc] at h
      exact (Option.some.inj h) ▸ List.mem_cons_self _ _
    · rw [firstSource, if_neg hc] at h
      exact List.mem_cons_of_mem _ (ih h)

/-- Combined per-stage form of `scanTable_spec`: carry the score/sum
invariant along with a concrete superset of the labels seen so far. -/
lemma scanTable_stage (cat content : String) (table : List (String × Int))
    (st : Int × List (String × Int)) (L : List String)
    (hsum : st.1 = sumVals st.2)
    (hsub : ∀ k ∈ keys st.2, k ∈ L)
    (hdisj : ∀ k ∈ catKeys cat table, k ∉ L)
    (hnd : (catKeys cat table).Nodup) :
    (scanTable cat table content st).1 = sumVals (scanTable cat table content st).2 ∧
    ∀ k ∈ keys (scanTable cat table content st).2, k ∈ L ++ catKeys cat table := by
  have hfr : ∀ k ∈ catKeys cat table, k ∉ keys st.2 :=
    fun k hk hk' => hdisj k hk (hsub k hk')
  obtain ⟨hs, hp⟩ := scanTable_spec cat content table st hsum hfr hnd
  refine ⟨hs, fun k hk => ?_⟩
  rcases hp k hk with h | h
  · exact List.mem_append.mpr (Or.inl (hsub k h))
  · exact List.mem_append.mpr (Or.inr h)

/-- Labels the four keyword tables can produce. -/
def fourTableKeys : List String :=
  catKeys "High-value" high_value_keywords ++ catKeys "Medium-value" medium_value_keywords ++
  catKeys "Company" ai_companies ++ catKeys "Tech" tech_terms

/-- All labels `scoreCore` can produce. -/
def coreKeysList : List String := fourTableKeys ++ ["Current year", "Recent year"]

lemma scoreCore_spec (y : Nat) (url title : String) :
    (scoreCore y url title).1 = sumVals (scoreCore y url title).2 ∧
    (∀ k ∈ keys (scoreCore y url title).2, k ∈ coreKeysList) ∧
    0 ≤ (scoreCore y url title).1 := by
  simp only [scoreCore]
  set c := strLower (url ++ " " ++ title) with hc
  set st1 := scanTable "High-value" high_value_keywords c (0, []) with h1
  set st2 := scanTable "Medium-value" medium_value_keywords c st1 with h2
  set st3 := scanTable "Company" ai_companies c st2 with h3
  set st4 := scanTable "Tech" tech_terms c st3 with h4
  have base0 : ((0, []) : Int × List (String × Int)).1
      = sumVals ((0, []) : Int × List (String × Int)).2 := by
    simp [sumVals]
  have sub0 : ∀ k ∈ keys ((0, []) : Int × List (String × Int)).2,
      k ∈ ([] : List String) := by
    simp [keys]
  obtain ⟨s1, p1⟩ := scanTable_stage "High-value" c high_value_keywords (0, []) []
    base0 sub0 (by decide) (by decide)
  rw [← h1] at s1 p1
  obtain ⟨s2, p2⟩ := scanTable_stage "Medium-value" c medium_value_keywords st1
    ([] ++ catKeys "High-value" high_value_keywords) s1 p1 (by decide) (by decide)
  rw [← h2] at s2 p2
  obtain ⟨s3, p3⟩ := scanTable_stage "Company" c ai_companies st2
    ([] ++ catKeys "High-value" high_value_keywords
      ++ catKeys "Medium-value" medium_value_keywords) s2 p2 (by decide) (by decide)
  rw [← h3] at s3 p3
  obtain ⟨s4, p4⟩ := scanTable_stage "Tech" c tech_terms st3
    ([] ++ catKeys "High-value" high_value_keywords
      ++ catKeys "Medium-value" medium_value_keywords
      ++ catKeys "Company" ai_companies) s3 p3 (by decide) (by decide)
  rw [← h4] at s4 p4
  have p4' : ∀ k ∈ keys st4.2, k ∈ fourTableKeys := by
    intro k hk
    have := p4 k hk
    simp only [fourTableKeys, List.mem_append, List.nil_append] at this ⊢
    tauto
  have hsubCore : ∀ k ∈ keys st4.2, k ∈ coreKeysList := by
    intro k hk
    exact List.mem_append.mpr (Or.inl (p4' k hk))
  have mono1 : (0 : Int) ≤ st1.1 := by
    rw [h1]
    exact scanTable_mono _ _ _ _ (by decide)
  have mono2 : st1.1 ≤ st2.1 := by
    rw [h2]
    exact scanTable_mono _ _ _ _ (by decide)
  have mono3 : st2.1 ≤ st3.1 := by
    rw [h3]
    exact scanTable_mono _ _ _ _ (by decide)
  have mono4 : st3.1 ≤ st4.1 := by
    rw [h4]
    exact scanTable_mono _ _ _ _ (by decide)
  have pos4 : (0 : Int) ≤ st4.1 := le_trans (le_trans (le_trans mono1 mono2) mono3) mono4
  have hcy : ("Current year" : String) ∉ keys st4.2 := by
    intro hmem
    have := p4' _ hmem
    revert this
    decide
  have hry : ("Recent year" : String) ∉ keys st4.2 := by
    intro hmem
    have := p4' _ hmem
    revert this
    decide
  by_cases hy : strContains url (toString y) = true
  · rw [if_pos hy, addEntry_fresh st4 8 hcy]
    refine ⟨?_, ?_, ?_⟩
    · simp [sumVals_append, sumVals_single, s4]
    · intro k hk
      rw [keys_append] at hk
      rcases List.mem_append.mp hk with h | h
      · exact hsubCore k h
      · have : k = "Current year" := by simpa [keys] using h
        rw [this]
        decide
    · simp only
      omega
  · rw [if_neg hy]
    by_cases hy' : strContains url (toString (y - 1)) = true
    · rw [if_pos hy', addEntry_fresh st4 4 hry]
      refine ⟨?_, ?_, ?_⟩
      · simp [sumVals_append, sumVals_single, s4]
      · intro k hk
        rw [keys_append] at hk
        rcases List.mem_append.mp hk with h | h
        · exact hsubCore k h
        · have : k = "Recent year" := by simpa [keys] using h
          rw [this]
          decide
      · simp only
        omega
    · rw [if_neg hy']
      exact ⟨s4, hsubCore, pos4⟩

lemma scoreFinish_spec {st : Int × List (String × Int)} (netloc : String)
    (hsum : st.1 = sumVals st.2)
    (hkeys : ∀ k ∈ keys st.2, k ∈ coreKeysList)
    (hpos : 0 ≤ st.1) :
    (scoreFinish st netloc).1 = sumVals (scoreFinish st netloc).2 ∧
    5 ≤ (scoreFinish st netloc).1 ∧
    (scoreFinish st netloc).2.countP (fun kv => strStartsWith "Source: " kv.1) ≤ 1 := by
  have hbase : ("Base AI relevance" : String) ∉ keys st.2 := by
    intro hmem
    have := hkeys _ hmem
    revert this
    decide
  have hcount0 : st.2.countP (fun kv => strStartsWith "Source: " kv.1) = 0 := by
    rw [List.countP_eq_zero]
    intro kv hkv
    have hk : kv.1 ∈ keys st.2 := List.mem_map_of_mem Prod.fst hkv
    have h2 : ∀ k ∈ coreKeysList, strStartsWith "Source: " k = false := by decide
    simp [h2 _ (hkeys _ hk)]
  simp only [scoreFinish]
  cases hfs : firstSource (strLower netloc) source_bonus with
  | none =>
    dsimp only
    rw [addEntry_fresh st 5 hbase]
    refine ⟨?_, ?_, ?_⟩
    · simp [sumVals_append, sumVals_single, hsum]
    · simp only
      omega
    · simp only [List.countP_append, hcount0]
      simp [strStartsWith, listStartsWith]
  | some sb =>
    dsimp only
    have hsb : sb ∈ source_bonus := firstSource_mem hfs
    have hkey1 : ("Source: " ++ sb.1) ∉ keys st.2 := by
      intro hmem
      have h1 := hkeys _ hmem
      have h2 : ∀ p ∈ source_bonus, ("Source: " ++ p.1) ∉ coreKeysList := by decide
      exact h2 sb hsb h1
    rw [addEntry_fresh st sb.2 hkey1]
    have hbase' : ("Base AI relevance" : String) ∉ keys (st.2 ++ [("Source: " ++ sb.1, sb.2)]) := by
      rw [keys_append]
      simp only [List.mem_append]
      rintro (h | h)
      · exact hbase h
      · have hne : ∀ p ∈ source_bonus, ("Base AI relevance" : String) ≠ "Source: " ++ p.1 := by
          decide
        have : ("Base AI relevance" : String) = "Source: " ++ sb.1 := by simpa [keys] using h
        exact hne sb hsb this
    rw [addEntry_fresh (st.1 + sb.2, st.2 ++ [("Source: " ++ sb.1, sb.2)]) 5 hbase']
    have hsb2 : 0 ≤ sb.2 := by
      have : ∀ p ∈ source_bonus, 0 ≤ p.2 := by decide
      exact this sb hsb
    refine ⟨?_, ?_, ?_⟩
    · simp [sumVals_append, sumVals, hsum]
      ring
    · simp only
      omega
    · simp only [List.countP_append, hcount0]
      have hle : List.countP (fun kv => strStartsWith "Source: " kv.1)
          [("Source: " ++ sb.1, sb.2)] ≤ 1 := List.countP_le_length _
      have hb0 : List.countP (fun kv => strStartsWith "Source: " kv.1)
          [(("Base AI relevance" : String), (5 : Int))] = 0 := by
        simp [strStartsWith, listStartsWith]
      omega

/-- C1: whenever `calculate_relevance_score` returns a pair
`(score, breakdown)`, the score equals the sum of the breakdown's values. -/
theorem score_eq_sum_of_breakdown (y : Nat) (url title : String)
    (s : Int) (bd : List (String × Int))
    (h : calculate_relevance_score y url title = Except.ok (s, bd)) :
    s = sumVals bd := by
  unfold calculate_relevance_score at h
  cases hn : netlocOf url with
  | error e =>
    rw [hn] at h
    exact absurd h (by simp)
  | ok netloc =>
    rw [hn] at h
    have h' : scoreFinish (scoreCore y url title) netloc = (s, bd) := by
      simpa using h
    obtain ⟨c1, c2, c3⟩ := scoreCore_spec y url title
    obtain ⟨d1, _, _⟩ := scoreFinish_spec netloc c1 c2 c3
    rw [h'] at d1
    exact d1

theorem score_eq_sum_of_breakdown_witness :
    (5 : Int) = sumVals [("Base AI relevance", (5 : Int))] :=
  score_eq_sum_of_breakdown 2025 "a" "" 5 [("Base AI relevance", 5)] (by decide)

/-- C7: a returned breakdown contains at most one entry labelled
`"Source: *"` (the domain list is scanned first-match-wins). -/
theorem at_most_one_source_entry (y : Nat) (url title : String)
    (s : Int) (bd : List (String × Int))
    (h : calculate_relevance_score y url title = Except.ok (s, bd)) :
    bd.countP (fun kv => strStartsWith "Source: " kv.1) ≤ 1 := by
  unfold calculate_relevance_score at h
  cases hn : netlocOf url with
  | error e =>
    rw [hn] at h
    exact absurd h (by simp)
  | ok netloc =>
    rw [hn] at h
    have h' : scoreFinish (scoreCore y url title) netloc = (s, bd) := by
      simpa using h
    obtain ⟨c1, c2, c3⟩ := scoreCore_spec y url title
    obtain ⟨_, _, d3⟩ := scoreFinish_spec netloc c1 c2 c3
    rw [h'] at d3
    exact d3

theorem at_most_one_source_entry_witness :
    List.countP (fun kv => strStartsWith "Source: " kv.1)
      [(("Base AI relevance" : String), (5 : Int))] ≤ 1 :=
  at_most_one_source_entry 2025 "b" "" 5 [("Base AI relevance", 5)] (by decide)

/-- C8: a returned score is at least 5 (the base AI relevance constant is
always added). -/
theorem score_at_least_base (y : Nat) (url title : String)
    (s : Int) (bd : List (String × Int))
    (h : calculate_relevance_score y url title = Except.ok (s, bd)) :
    5 ≤ s := by
  unfold calculate_relevance_score at h
  cases hn : netlocOf url with
  | error e =>
    rw [hn] at h
    exact absurd h (by simp)
  | ok netloc =>
    rw [hn] at h
    have h' : scoreFinish (scoreCore y url title) netloc = (s, bd) := by
      simpa using h
    obtain ⟨c1, c2, c3⟩ := scoreCore_spec y url title
    obtain ⟨_, d2, _⟩ := scoreFinish_spec netloc c1 c2 c3
    rw [h'] at d2
    exact d2

theorem score_at_least_base_witness : (5 : Int) ≤ 5 :=
  score_at_least_base 2025 "c" "" 5 [("Base AI relevance", 5)] (by decide)

/-! ## Totality of the scorer (C4) -/

lemma mem_of_mem_takeWhile {p : Char → Bool} :
    ∀ {l : List Char} {a : Char}, a ∈ l.takeWhile p → a ∈ l := by
  intro l
  induction l with
  | nil => intro a h; simp at h
  | cons c t ih =>
    intro a h
    rw [List.takeWhile_cons] at h
    by_cases hc : p c = true
    · rw [if_pos hc] at h
      rcases List.mem_cons.mp h with h1 | h1
      · rw [h1]; exact List.mem_cons_self _ _
      · exact List.mem_cons_of_mem _ (ih h1)
    · rw [if_neg hc] at h
      simp at h

lemma mem_of_mem_splitScheme {l : List Char} {a : Char}
    (h : a ∈ splitScheme l) : a ∈ l := by
  unfold splitScheme at h
  cases hf : l.findIdx? (fun c => c == ':') with
  | none => rw [hf] at h; exact h
  | some i =>
    rw [hf] at h
    dsimp only at h
    by_cases hc : (decide (0 < i) && (l.headD ' ').isAlpha
        && (l.take i).all schemeChar) = true
    · rw [if_pos hc] at h
      exact List.mem_of_mem_drop h
    · rw [if_neg hc] at h
      exact h

/-- C4 counterexample: the scorer is not total — a URL with a mismatched
square bracket in its authority makes `urlparse` raise `ValueError`
("Invalid IPv6 URL"), which propagates out of `calculate_relevance_score`. -/
theorem relevance_score_error_on_bracket_url :
    calculate_relevance_score 2025 "http://[x" "" = Except.error "Invalid IPv6 URL" := by
  decide

/-- C4 (amended): for URLs whose characters are all ASCII and contain no
square bracket, `calculate_relevance_score` always returns a
`(score, breakdown)` pair; such URLs that parse to no recognised domain
simply miss the source bonus and keep only the base score contributions. -/
theorem relevance_score_total_without_brackets (y : Nat) (url title : String)
    (h : ∀ c ∈ url.data, c ≠ '[' ∧ c ≠ ']' ∧ c.toNat < 128) :
    (calculate_relevance_score y url title).isOk = true := by
  have hmem : ∀ a ∈ ((splitScheme url.data).drop 2).takeWhile
      (fun c => !(c == '/' || c == '?' || c == '#')), a ∈ url.data := by
    intro a ha
    exact mem_of_mem_splitScheme (List.mem_of_mem_drop (mem_of_mem_takeWhile ha))
  have hopen : (((splitScheme url.data).drop 2).takeWhile
      (fun c => !(c == '/' || c == '?' || c == '#'))).any (fun c => c == '[') = false := by
    rw [List.any_eq_false]
    intro a ha hc
    exact (h a (hmem a ha)).1 (by simpa using hc)
  have hclose : (((splitScheme url.data).drop 2).takeWhile
      (fun c => !(c == '/' || c == '?' || c == '#'))).any (fun c => c == ']') = false := by
    rw [List.any_eq_false]
    intro a ha hc
    exact (h a (hmem a ha)).2.1 (by simpa using hc)
  have hnet : ∃ n, netlocOf url = Except.ok n := by
    simp only [netlocOf]
    by_cases h2 : (splitScheme url.data).take 2 = ['/', '/']
    · rw [if_pos h2, if_neg ?_]
      · exact ⟨_, rfl⟩
      · rw [hopen, hclose]
        simp
    · rw [if_neg h2]
      exact ⟨_, rfl⟩
  obtain ⟨n, hn⟩ := hnet
  simp [calculate_relevance_score, hn, Except.isOk, Except.toBool]

theorem relevance_score_total_without_brackets_witness :
    (calculate_relevance_score 2025 "http://x.com/a" "").isOk = true :=
  relevance_score_total_without_brackets 2025 "http://x.com/a" "" (by decide)

/-! ## Ranking and selection (`create_comprehensive_ai_digest`)

The digest builder runs
`sorted(scored_articles, key=lambda x: x[3], reverse=True)[:top_n]`:
a stable descending sort on the score component followed by truncation.
Python's `sorted` is stable, so it is modelled by an insertion sort that
places an element before all already-placed elements of equal score
(the already-placed ones come later in the input). -/

/-- A `(source, url, title, score, breakdown)` tuple of `scored_articles`. -/
structure ScoredArticle where
  source : String
  url : String
  title : String
  score : Int
  breakdown : List (String × Int)
  deriving DecidableEq

/-- Insert into a descending-sorted list, before any equal-score element
(the inserted element precedes the list's elements in the input). -/
def insertDesc (x : ScoredArticle) : List ScoredArticle → List ScoredArticle
  | [] => [x]
  | y :: ys => if y.score ≤ x.score then x :: y :: ys else y :: insertDesc x ys

/-- Stable descending sort by score: the behaviour of Python
`sorted(_, key=lambda x: x[3], reverse=True)`. -/
def sortByScoreDesc (l : List ScoredArticle) : List ScoredArticle :=
  l.foldr insertDesc []

/-- `sorted(scored_articles, key=lambda x: x[3], reverse=True)[:top_n]`. -/
def select_top (l : List ScoredArticle) (n : Nat) : List ScoredArticle :=
  (sortByScoreDesc l).take n

lemma insertDesc_perm (x : ScoredArticle) :
    ∀ l : List ScoredArticle, List.Perm (insertDesc x l) (x :: l) := by
  intro l
  induction l with
  | nil => exact List.Perm.refl _
  | cons y ys ih =>
    rw [insertDesc]
    by_cases hc : y.score ≤ x.score
    · rw [if_pos hc]
    · rw [if_neg hc]
      exact (ih.cons y).trans (List.Perm.swap x y ys)

lemma sortByScoreDesc_perm (l : List ScoredArticle) :
    List.Perm (sortByScoreDesc l) l := by
  induction l with
  | nil => exact List.Perm.refl _
  | cons y ys ih =>
    have : sortByScoreDesc (y :: ys) = insertDesc y (sortByScoreDesc ys) := rfl
    rw [this]
    exact (insertDesc_perm y _).trans (ih.cons y)

lemma insertDesc_sorted (x : ScoredArticle) :
    ∀ {l : List ScoredArticle},
      List.Pairwise (fun a b => b.score ≤ a.score) l →
      List.Pairwise (fun a b => b.score ≤ a.score) (insertDesc x l) := by
  intro l
  induction l with
  | nil => intro _; simp [insertDesc]
  | cons y ys ih =>
    intro hp
    obtain ⟨hy, hys⟩ := List.pairwise_cons.mp hp
    rw [insertDesc]
    by_cases hc : y.score ≤ x.score
    · rw [if_pos hc]
      refine List.pairwise_cons.mpr ⟨?_, hp⟩
      intro z hz
      rcases List.mem_cons.mp hz with h1 | h1
      · rw [h1]; exact hc
      · exact le_trans (hy z h1) hc
    · rw [if_neg hc]
      refine List.pairwise_cons.mpr ⟨?_, ih hys⟩
      intro z hz
      rcases List.mem_cons.mp ((insertDesc_perm x ys).mem_iff.mp hz) with h1 | h1
      · rw [h1]; omega
      · exact hy z h1

lemma sortByScoreDesc_sorted (l : List ScoredArticle) :
    List.Pairwise (fun a b => b.score ≤ a.score) (sortByScoreDesc l) := by
  induction l with
  | nil => simp [sortByScoreDesc]
  | cons y ys ih => exact insertDesc_sorted y ih

lemma filter_insertDesc (s : Int) (x : ScoredArticle) :
    ∀ l : List ScoredArticle,
      (insertDesc x l).filter (fun z => z.score == s)
        = if x.score == s then x :: l.filter (fun z => z.score == s)
          else l.filter (fun z => z.score == s) := by
  intro l
  induction l with
  | nil =>
    rw [insertDesc]
    by_cases hx : (x.score == s) = true
    · rw [if_pos hx]; simp [hx]
    · rw [if_neg hx]; simp [hx]
  | cons y ys ih =>
    rw [insertDesc]
    by_cases hc : y.score ≤ x.score
    · rw [if_pos hc]
      by_cases hx : (x.score == s) = true
      · rw [if_pos hx]; simp [hx]
      · rw [if_neg hx]; simp [hx]
    · rw [if_neg hc]
      by_cases hx : (x.score == s) = true
      · rw [if_pos hx]
        have hy : (y.score == s) = false := by
          have hxs : x.score = s := by simpa using hx
          have : y.score ≠ s := by omega
          simpa using this
        rw [List.filter_cons_of_neg (by simp [hy]), ih, if_pos hx,
          List.filter_cons_of_neg (by simp [hy])]
      · rw [if_neg hx]
        by_cases hy : (y.score == s) = true
        · rw [List.filter_cons_of_pos (by simp [hy]), ih, if_neg hx,
            List.filter_cons_of_pos (by simp [hy])]
        · rw [List.filter_cons_of_neg (by simp [hy]), ih, if_neg hx,
            List.filter_cons_of_neg (by simp [hy])]

lemma filter_sortByScoreDesc (s : Int) (l : List ScoredArticle) :
    (sortByScoreDesc l).filter (fun z => z.score == s)
      = l.filter (fun z => z.score == s) := by
  induction l with
  | nil => rfl
  | cons y ys ih =>
    have h0 : sortByScoreDesc (y :: ys) = insertDesc y (sortByScoreDesc ys) := rfl
    rw [h0, filter_insertDesc s y]
    by_cases hy : (y.score == s) = true
    · rw [if_pos hy, ih, List.filter_cons_of_pos (by simp [hy])]
    · rw [if_neg hy, ih, List.filter_cons_of_neg (by simp [hy])]

/-- C2: top-N selection returns exactly `min n |candidates|` entries,
sorted by score descending, and is stable: within each score class the
output is a leading segment of the input's elements of that score, in the
input's order.  In particular an empty input yields an empty output. -/
theorem select_top_spec (c : List ScoredArticle) (n : Nat) (hn : 0 < n) :
    (select_top c n).length = min n c.length ∧
    List.Pairwise (fun a b => b.score ≤ a.score) (select_top c n) ∧
    ∀ s : Int, ∃ rest,
      c.filter (fun z => z.score == s)
        = (select_top c n).filter (fun z => z.score == s) ++ rest := by
  refine ⟨?_, ?_, ?_⟩
  · rw [select_top, List.length_take, (sortByScoreDesc_perm c).length_eq]
  · exact (sortByScoreDesc_sorted c).sublist (List.take_sublist n _)
  · intro s
    refine ⟨((sortByScoreDesc c).drop n).filter (fun z => z.score == s), ?_⟩
    rw [select_top, ← List.filter_append, List.take_append_drop,
      filter_sortByScoreDesc]

theorem select_top_spec_witness :
    ((select_top [⟨"A", "ua", "ta", 40, []⟩, ⟨"B", "ub", "tb", 40, []⟩] 15).length
        = min 15 2 ∧
      List.Pairwise (fun a b => b.score ≤ a.score)
        (select_top [⟨"A", "ua", "ta", 40, []⟩, ⟨"B", "ub", "tb", 40, []⟩] 15) ∧
      ∀ s : Int, ∃ rest,
        List.filter (fun z => z.score == s)
            [⟨"A", "ua", "ta", 40, []⟩, ⟨"B", "ub", "tb", 40, []⟩]
          = (select_top [⟨"A", "ua", "ta", 40, []⟩, ⟨"B", "ub", "tb", 40, []⟩] 15).filter
              (fun z => z.score == s) ++ rest) ∧
    (select_top [] 15).length = min 15 0 :=
  ⟨select_top_spec [⟨"A", "ua", "ta", 40, []⟩, ⟨"B", "ub", "tb", 40, []⟩] 15 (by decide),
   (select_top_spec [] 15 (by decide)).1⟩

/-! ## Scoring pass over collected candidates (C3)

`create_comprehensive_ai_digest` scores every `(source, url, title)` tuple
of `all_articles` in turn — there is no deduplication by URL before
scoring, and `DailyDigestBot.collect_and_process_articles` likewise scores
each yielded tuple. -/

/-- A raw `(source, url, title)` candidate from `fetch_all_ai_sources`. -/
structure RawArticle where
  source : String
  url : String
  title : String
  deriving DecidableEq

/-- The `for source, url, title in all_articles` scoring loop of
`create_comprehensive_ai_digest`: every tuple is scored; an exception from
the scorer aborts the loop. -/
def score_all (y : Nat) : List RawArticle → Except String (List ScoredArticle)
  | [] => Except.ok []
  | a :: rest =>
    match calculate_relevance_score y a.url a.title with
    | Except.error e => Except.error e
    | Except.ok sb =>
      match score_all y rest with
      | Except.error e => Except.error e
      | Except.ok tail => Except.ok (⟨a.source, a.url, a.title, sb.1, sb.2⟩ :: tail)

/-- A URL yielded by two different sources in one collection pass. -/
def dupUrl : String := "https://openai.com/index"

/-- Two candidates with the same URL from different sources. -/
def dupInput : List RawArticle :=
  [⟨"TechCrunch", dupUrl, ""⟩, ⟨"Wired", dupUrl, ""⟩]

/-- The scored list the loop produces on `dupInput`. -/
def dupScored : List ScoredArticle :=
  [⟨"TechCrunch", dupUrl, "", 25, [("High-value: openai", 20), ("Base AI relevance", 5)]⟩,
   ⟨"Wired", dupUrl, "", 25, [("High-value: openai", 20), ("Base AI relevance", 5)]⟩]

/-- C3 counterexample: when the same URL is yielded by two sources in one
pass, it is scored twice (once per occurrence), not exactly once, and both
occurrences are kept. -/
theorem scoring_dedup_counterexample :
    score_all 2025 dupInput = Except.ok dupScored ∧
    dupScored.countP (fun e => e.url == dupUrl) = 2 ∧
    dupScored.countP (fun e => e.url == dupUrl) ≠ 1 :=
  ⟨by decide, by decide, by decide⟩

/-- C3 (amended): candidates are not deduplicated by URL before scoring:
the collection pass scores every yielded `(source, url, title)` tuple, so
each URL is scored once per occurrence (not once per distinct URL) and all
occurrences are kept with their own source attribution; deduplication
happens only later, at the database layer. -/
theorem scoring_once_per_occurrence (y : Nat) :
    ∀ (l : List RawArticle) (scored : List ScoredArticle) (u : String),
      score_all y l = Except.ok scored →
      scored.countP (fun e => e.url == u) = l.countP (fun a => a.url == u) := by
  intro l
  induction l with
  | nil =>
    intro scored u h
    have : scored = [] := by
      rw [score_all] at h
      exact (Except.ok.inj h).symm
    rw [this]
    rfl
  | cons a rest ih =>
    intro scored u h
    rw [score_all] at h
    cases hc : calculate_relevance_score y a.url a.title with
    | error e =>
      rw [hc] at h
      exact absurd h (by simp)
    | ok sb =>
      rw [hc] at h
      dsimp only at h
      cases hr : score_all y rest with
      | error e =>
        rw [hr] at h
        exact absurd h (by simp)
      | ok tail =>
        rw [hr] at h
        dsimp only at h
        have hs : scored = ⟨a.source, a.url, a.title, sb.1, sb.2⟩ :: tail :=
          (Except.ok.inj h).symm
        rw [hs, List.countP_cons, List.countP_cons, ih tail u hr]

theorem scoring_once_per_occurrence_witness :
    dupScored.countP (fun e => e.url == dupUrl)
      = dupInput.countP (fun a => a.url == dupUrl) :=
  scoring_once_per_occurrence 2025 dupInput dupScored dupUrl (by decide)

/-! ## Collection loop admission threshold (C5)

Models the decision logic of `DailyDigestBot.collect_and_process_articles`:
per-source limit, scoring, the `if score < 30: continue` admission
threshold, and the hand-off to extraction/storage/summarization (recorded
as an emitted event).  Whether the downstream extraction, storage and summarization calls
for a candidate succeed is an input (`Bool`) per candidate: an exception
there is caught and skips the per-source counter update. -/

/-- A candidate handed to the Store/Summarizer pipeline, with the score it
was accepted at. -/
structure CollectEvent where
  source : String
  url : String
  title : String
  score : Int
  deriving DecidableEq

/-- State of the collection loop: `processed_by_source` and the candidates
handed to the pipeline so far. -/
structure CState where
  counts : List (String × Nat)
  events : List CollectEvent

/-- `processed_by_source[source]`, defaulting to 0 (the loop initialises
missing keys to 0). -/
def lookupCount (l : List (String × Nat)) (s : String) : Nat :=
  match l.find? (fun p => p.1 == s) with
  | some p => p.2
  | none => 0

/-- `processed_by_source[source] = n`. -/
def setCount (l : List (String × Nat)) (s : String) (n : Nat) : List (String × Nat) :=
  if l.any (fun p => p.1 == s) then
    l.map (fun p => if p.1 == s then (s, n) else p)
  else
    l ++ [(s, n)]

/-- One iteration of the `for source, url, title in all_articles` loop of
`collect_and_process_articles`.  `c.2` tells whether the downstream pipeline
calls for this candidate succeed (an exception is caught and the counter
update is skipped). -/
def collect_step (y limit : Nat) (st : CState) (c : RawArticle × Bool) : CState :=
  let cnt := lookupCount st.counts c.1.source
  if limit ≤ cnt then st
  else
    match calculate_relevance_score y c.1.url c.1.title with
    | Except.error _ => st
    | Except.ok sb =>
      if sb.1 < 30 then st
      else
        let st' : CState := ⟨st.counts, st.events ++ [⟨c.1.source, c.1.url, c.1.title, sb.1⟩]⟩
        if c.2 then ⟨setCount st'.counts c.1.source (cnt + 1), st'.events⟩ else st'

/-- The collection loop over all candidates, starting from an empty state. -/
def collect_and_process_articles (y limit : Nat) (l : List (RawArticle × Bool)) : CState :=
  l.foldl (collect_step y limit) ⟨[], []⟩

lemma collect_events_inv (y limit : Nat) :
    ∀ (l : List (RawArticle × Bool)) (st : CState),
      (∀ e ∈ st.events, 30 ≤ e.score ∧ ∃ bd,
        calculate_relevance_score y e.url e.title = Except.ok (e.score, bd)) →
      ∀ e ∈ (l.foldl (collect_step y limit) st).events,
        30 ≤ e.score ∧ ∃ bd,
          calculate_relevance_score y e.url e.title = Except.ok (e.score, bd) := by
  intro l
  induction l with
  | nil => intro st h e he; exact h e he
  | cons c rest ih =>
    intro st h
    rw [List.foldl_cons]
    apply ih
    intro e he
    rw [collect_step] at he
    by_cases h1 : limit ≤ lookupCount st.counts c.1.source
    · rw [if_pos h1] at he
      exact h e he
    · rw [if_neg h1] at he
      dsimp only at he
      cases hc : calculate_relevance_score y c.1.url c.1.title with
      | error msg =>
        rw [hc] at he
        exact h e he
      | ok sb =>
        rw [hc] at he
        dsimp only at he
        by_cases h2 : sb.1 < 30
        · rw [if_pos h2] at he
          exact h e he
        · rw [if_neg h2] at he
          have hmem : e ∈ st.events ++ [⟨c.1.source, c.1.url, c.1.title, sb.1⟩] := by
            by_cases h3 : c.2 = true
            · rw [if_pos h3] at he
              exact he
            · rw [if_neg h3] at he
              exact he
          rcases List.mem_append.mp hmem with h4 | h4
          · exact h e h4
          · have he' : e = ⟨c.1.source, c.1.url, c.1.title, sb.1⟩ :=
              List.mem_singleton.mp h4
            rw [he']
            refine ⟨?_, ⟨sb.2, ?_⟩⟩ <;> dsimp only
            · omega
            · rw [hc]

/-- C5: every candidate handed to the Store/Summarizer pipeline by the
collection loop was scored and let through at a relevance score of at least
30; candidates scoring below 30 are skipped and emit no pipeline event. -/
theorem threshold_gates_pipeline (y limit : Nat) (l : List (RawArticle × Bool))
    (e : CollectEvent) (he : e ∈ (collect_and_process_articles y limit l).events) :
    30 ≤ e.score ∧ ∃ bd,
      calculate_relevance_score y e.url e.title = Except.ok (e.score, bd) :=
  collect_events_inv y limit l ⟨[], []⟩
    (fun e' he' => absurd he' (by simp)) e he

/-- A one-candidate run whose candidate scores 60 and is handed on. -/
def collectWitnessInput : List (RawArticle × Bool) :=
  [(⟨"TechCrunch", "https://openai.com/chatgpt", ""⟩, true)]

/-- The pipeline event that run emits. -/
def collectWitnessEvent : CollectEvent :=
  ⟨"TechCrunch", "https://openai.com/chatgpt", "", 60⟩

theorem threshold_gates_pipeline_witness :
    30 ≤ collectWitnessEvent.score ∧ ∃ bd,
      calculate_relevance_score 2025 collectWitnessEvent.url collectWitnessEvent.title
        = Except.ok (collectWitnessEvent.score, bd) :=
  threshold_gates_pipeline 2025 10 collectWitnessInput collectWitnessEvent (by decide)

/-! ## Telegram digest formatting (`TelegramDigestBot`) (C9)

`format_digest_message` loops over `articles[:10]` and
`format_short_digest` over `articles[:8]`; the header counts use the whole
list.  Articles are dicts read with `.get(key, default)`, modelled with
`Option` fields. -/

/-- An article dict as consumed by the Telegram formatters. -/
structure DigestArticle where
  title : Option String
  summary : Option String
  url : Option String
  source : Option String
  relevance_score : Option Int
  deriving DecidableEq

/-- Python slicing by code points: `s[:n]`. -/
def strTake (s : String) (n : Nat) : String :=
  String.mk (s.data.take n)

/-- `len(set(a.get('source', '') for a in articles))`. -/
def sourceCount (articles : List DigestArticle) : Nat :=
  ((articles.map (fun a => a.source.getD "")).eraseDups).length

/-- Header of the long digest format. -/
def digestHeader (articles : List DigestArticle) (date : String) : String :=
  "🤖 **Дайджест новостей ИИ - " ++ date ++ "**\n" ++
  "🚀 _Будущее уже здесь: главные события в мире искусственного интеллекта_\n" ++
  "📊 Топ " ++ toString articles.length ++ " новостей из "
    ++ toString (sourceCount articles) ++ " источников\n\n"

/-- Footer shared by both formats. -/
def digestFooter : String :=
  "@LetsTalkAI\n" ++
  "#AI #ИИ #OpenAI #Google #ChatGPT #TechNews #ИскусственныйИнтеллект"

/-- One article block of the long format (`i` is the 1-based rank). -/
def longBlock (i : Nat) (article : DigestArticle) : String :=
  let title := article.title.getD "Без заголовка"
  let summary := article.summary.getD "Резюме недоступно"
  let url := article.url.getD ""
  let source := article.source.getD "Неизвестно"
  let score := article.relevance_score.getD 0
  let title := if 60 < title.length then strTake title 57 ++ "..." else title
  let summary := if 150 < summary.length then strTake summary 147 ++ "..." else summary
  "**" ++ toString i ++ ". " ++ title ++ "**\n" ++
  "📰 _" ++ source ++ "_ • Рейтинг: " ++ toString score ++ "\n" ++
  "📝 " ++ summary ++ "\n" ++
  "🔗 [Читать полностью](" ++ url ++ ")\n\n"

/-- Index of the last `'.'` in a character list (`str.rfind('.')`), `none`
when absent. -/
def rfindDotIdx (l : List Char) : Option Nat :=
  match l.reverse.findIdx? (fun c => c == '.') with
  | some j => some (l.length - 1 - j)
  | none => none

/-- One article block of the short format (`i` is the 1-based rank). -/
def shortBlock (i : Nat) (article : DigestArticle) : String :=
  let title := article.title.getD "Без заголовка"
  let summary := article.summary.getD "Резюме недоступно"
  let url := article.url.getD ""
  let source := article.source.getD "Неизвестно"
  let title := if 45 < title.length then strTake title 42 ++ "..." else title
  let enhanced_summary :=
    if 120 < summary.length then
      let truncated := strTake summary 120
      match rfindDotIdx truncated.data with
      | some last_period =>
        if 80 < last_period then strTake summary (last_period + 1)
        else truncated ++ "..."
      | none => truncated ++ "..."
    else summary
  "**" ++ toString i ++ ". " ++ title ++ "**\n" ++
  "📰 _" ++ source ++ "_ • " ++ enhanced_summary ++ "\n" ++
  "🔗 [Читать](" ++ url ++ ")\n\n"

/-- Header of the short digest format. -/
def shortHeader (date : String) : String :=
  "🤖 **Дайджест ИИ - " ++ date ++ "**\n" ++
  "📈 _Самые важные новости искусственного интеллекта за сегодня_\n\n"

/-- The article blocks of the long format:
`for i, article in enumerate(articles[:10], 1)`. -/
def longDigestBlocks (articles : List DigestArticle) : List String :=
  (articles.take 10).enum.map (fun p => longBlock (p.1 + 1) p.2)

/-- The article blocks of the short format:
`for i, article in enumerate(articles[:8], 1)`. -/
def shortDigestBlocks (articles : List DigestArticle) : List String :=
  (articles.take 8).enum.map (fun p => shortBlock (p.1 + 1) p.2)

/-- `TelegramDigestBot.format_digest_message`. -/
def format_digest_message (articles : List DigestArticle) (date : String) : String :=
  digestHeader articles date ++ String.join (longDigestBlocks articles) ++ digestFooter

/-- `TelegramDigestBot.format_short_digest`. -/
def format_short_digest (articles : List DigestArticle) (date : String) : String :=
  shortHeader date ++ String.join (shortDigestBlocks articles) ++ digestFooter

/-- C9: the long format renders exactly the first `min 10 n` articles and
the short format exactly the first `min 8 n`: the rendered blocks depend
only on the first 10 (resp. 8) articles, so a digest built from 15
articles renders only 10 of them. -/
theorem digest_formats_render_only_head (a b : List DigestArticle) (d : String)
    (h : a.take 10 = b.take 10) :
    longDigestBlocks a = longDigestBlocks b ∧
    (longDigestBlocks a).length = min 10 a.length ∧
    shortDigestBlocks a = shortDigestBlocks b ∧
    (shortDigestBlocks a).length = min 8 a.length ∧
    format_digest_message a d
      = digestHeader a d ++ String.join (longDigestBlocks b) ++ digestFooter ∧
    format_short_digest a d
      = shortHeader d ++ String.join (shortDigestBlocks b) ++ digestFooter := by
  have h8 : a.take 8 = b.take 8 := by
    have h' := congrArg (List.take 8) h
    rw [List.take_take, List.take_take] at h'
    simpa using h'
  refine ⟨?_, ?_, ?_, ?_, ?_, ?_⟩
  · rw [longDigestBlocks, longDigestBlocks, h]
  · rw [longDigestBlocks, List.length_map, List.enum_length, List.length_take]
  · rw [shortDigestBlocks, shortDigestBlocks, h8]
  · rw [shortDigestBlocks, List.length_map, List.enum_length, List.length_take]
  · rw [format_digest_message, longDigestBlocks, longDigestBlocks, h]
  · rw [format_short_digest, shortDigestBlocks, shortDigestBlocks, h8]

/-- A generic article for the formatting witness. -/
def witnessArticle (i : Nat) : DigestArticle :=
  ⟨some (toString i), some "s", some "u", some "src", some 10⟩

/-- Fifteen articles, as selected for one digest. -/
def fifteenArticles : List DigestArticle := (List.range 15).map witnessArticle

/-- The first ten of them. -/
def tenArticles : List DigestArticle := (List.range 10).map witnessArticle

theorem digest_formats_render_only_head_witness :
    longDigestBlocks fifteenArticles = longDigestBlocks tenArticles ∧
    (longDigestBlocks fifteenArticles).length = min 10 fifteenArticles.length ∧
    shortDigestBlocks fifteenArticles = shortDigestBlocks tenArticles ∧
    (shortDigestBlocks fifteenArticles).length = min 8 fifteenArticles.length ∧
    format_digest_message fifteenArticles "2025-01-01"
      = digestHeader fifteenArticles "2025-01-01"
        ++ String.join (longDigestBlocks tenArticles) ++ digestFooter ∧
    format_short_digest fifteenArticles "2025-01-01"
      = shortHeader "2025-01-01"
        ++ String.join (shortDigestBlocks tenArticles) ++ digestFooter :=
  digest_formats_render_only_head fifteenArticles tenArticles "2025-01-01" (by decide)

/-! ## MD5 (`hashlib.md5(url.encode()).hexdigest()`)

A reference implementation of RFC 1321 MD5 over byte lists, with 32-bit
words as naturals reduced modulo `2 ^ 32`.  Only evaluation on concrete
inputs is needed; all recursions are structural so the kernel can reduce
them. -/

/-- `2 ^ 32`. -/
def m32 : Nat := 4294967296

/-- UTF-8 encoding of one character (Python `str.encode()`). -/
def utf8Char (c : Char) : List Nat :=
  let n := c.toNat
  if n < 128 then [n]
  else if n < 2048 then [192 + n / 64, 128 + n % 64]
  else if n < 65536 then [224 + n / 4096, 128 + n / 64 % 64, 128 + n % 64]
  else [240 + n / 262144, 128 + n / 4096 % 64, 128 + n / 64 % 64, 128 + n % 64]

/-- UTF-8 encoding of a string as a byte list. -/
def utf8Encode (s : String) : List Nat :=
  s.data.flatMap utf8Char

/-- Little-endian byte decomposition of `x` into `n` bytes. -/
def leBytes (n x : Nat) : List Nat :=
  (List.range n).map (fun i => x / 256 ^ i % 256)

/-- The 64 MD5 sine-table constants of RFC 1321. -/
def md5K : List Nat :=
  [0xd76aa478, 0xe8c7b756, 0x242070db, 0xc1bdceee,
   0xf57c0faf, 0x4787c62a, 0xa8304613, 0xfd469501,
   0x698098d8, 0x8b44f7af, 0xffff5bb1, 0x895cd7be,
   0x6b901122, 0xfd987193, 0xa679438e, 0x49b40821,
   0xf61e2562, 0xc040b340, 0x265e5a51, 0xe9b6c7aa,
   0xd62f105d, 0x02441453, 0xd8a1e681, 0xe7d3fbc8,
   0x21e1cde6, 0xc33707d6, 0xf4d50d87, 0x455a14ed,
   0xa9e3e905, 0xfcefa3f8, 0x676f02d9, 0x8d2a4c8a,
   0xfffa3942, 0x8771f681, 0x6d9d6122, 0xfde5380c,
   0xa4beea44, 0x4bdecfa9, 0xf6bb4b60, 0xbebfbc70,
   0x289b7ec6, 0xeaa127fa, 0xd4ef3085, 0x04881d05,
   0xd9d4d039, 0xe6db99e5, 0x1fa27cf8, 0xc4ac5665,
   0xf4292244, 0x432aff97, 0xab9423a7, 0xfc93a039,
   0x655b59c3, 0x8f0ccc92, 0xffeff47d, 0x85845dd1,
   0x6fa87e4f, 0xfe2ce6e0, 0xa3014314, 0x4e0811a1,
   0xf7537e82, 0xbd3af235, 0x2ad7d2bb, 0xeb86d391]

/-- Per-step round function of MD5. -/
def md5F (i b c d : Nat) : Nat :=
  if i < 16 then (b &&& c) ||| ((b ^^^ (m32 - 1)) &&& d)
  else if i < 32 then (b &&& d) ||| (c &&& (d ^^^ (m32 - 1)))
  else if i < 48 then b ^^^ c ^^^ d
  else c ^^^ (b ||| (d ^^^ (m32 - 1)))

/-- Message-word index used at step `i`. -/
def md5G (i : Nat) : Nat :=
  if i < 16 then i
  else if i < 32 then (5 * i + 1) % 16
  else if i < 48 then (3 * i + 5) % 16
  else (7 * i) % 16

/-- Left-rotation amount used at step `i`. -/
def md5S (i : Nat) : Nat :=
  (if i < 16 then [7, 12, 17, 22]
   else if i < 32 then [5, 9, 14, 20]
   else if i < 48 then [4, 11, 16, 23]
   else [6, 10, 15, 21]).getD (i % 4) 0

/-- 32-bit left rotation. -/
def rotl32 (x n : Nat) : Nat :=
  ((x <<< n) ||| (x >>> (32 - n))) % m32

/-- One of the 64 MD5 steps on state `(a, b, c, d)` with message words `M`. -/
def md5Step (M : List Nat) (st : Nat × Nat × Nat × Nat) (i : Nat) :
    Nat × Nat × Nat × Nat :=
  let a := st.1
  let b := st.2.1
  let c := st.2.2.1
  let d := st.2.2.2
  let tmp := (a + md5F i b c d + (md5K.getD i 0) + (M.getD (md5G i) 0)) % m32
  (d, (b + rotl32 tmp (md5S i)) % m32, b, c)

/-- The 16 little-endian 32-bit words of one 64-byte block. -/
def words16 (block : List Nat) : List Nat :=
  (List.range 16).map (fun i =>
    block.getD (4 * i) 0 + 256 * block.getD (4 * i + 1) 0 +
    65536 * block.getD (4 * i + 2) 0 + 16777216 * block.getD (4 * i + 3) 0)

/-- Process one 64-byte block. -/
def md5Block (st : Nat × Nat × Nat × Nat) (block : List Nat) :
    Nat × Nat × Nat × Nat :=
  let M := words16 block
  let r := (List.range 64).foldl (md5Step M) st
  ((st.1 + r.1) % m32, (st.2.1 + r.2.1) % m32,
   (st.2.2.1 + r.2.2.1) % m32, (st.2.2.2 + r.2.2.2) % m32)

/-- Split into 64-byte chunks (fuel-driven so the kernel can reduce it). -/
def chunks64Aux : Nat → List Nat → List (List Nat)
  | 0, _ => []
  | _, [] => []
  | fuel + 1, l => l.take 64 :: chunks64Aux fuel (l.drop 64)

/-- Split a padded message into its 64-byte blocks. -/
def chunks64 (l : List Nat) : List (List Nat) :=
  chunks64Aux l.length l

/-- RFC 1321 padding: `0x80`, zeros to 56 mod 64, 8-byte bit length. -/
def md5Pad (msg : List Nat) : List Nat :=
  let zeros := (56 + 64 - (msg.length + 1) % 64) % 64
  msg ++ [128] ++ List.replicate zeros 0 ++ leBytes 8 (8 * msg.length % (m32 * m32))

/-- MD5 digest (16 bytes) of a byte list. -/
def md5Bytes (msg : List Nat) : List Nat :=
  let init : Nat × Nat × Nat × Nat := (0x67452301, 0xefcdab89, 0x98badcfe, 0x10325476)
  let fin := (chunks64 (md5Pad msg)).foldl md5Block init
  leBytes 4 fin.1 ++ leBytes 4 fin.2.1 ++ leBytes 4 fin.2.2.1 ++ leBytes 4 fin.2.2.2

/-- Lowercase hexadecimal digit. -/
def hexChar (n : Nat) : Char :=
  "0123456789abcdef".data.getD n '0'

/-- Lowercase hex rendering of a byte list. -/
def toHexStr (bytes : List Nat) : String :=
  String.mk (bytes.flatMap (fun b => [hexChar (b / 16), hexChar (b % 16)]))

/-- `hashlib.md5(s.encode()).hexdigest()`. -/
def md5Hex (s : String) : String :=
  toHexStr (md5Bytes (utf8Encode s))

set_option maxRecDepth 100000 in
/-- RFC 1321 test vectors for the embedded MD5. -/
theorem md5Hex_test_vectors :
    md5Hex "" = "d41d8cd98f00b204e9800998ecf8427e" ∧
    md5Hex "abc" = "900150983cd24fb0d6963f7d28e17f72" := by
  constructor <;> decide

/-! ## The article store (`NewsDatabase`) (C6, C10)

`add_article` hashes the exact URL with MD5, looks the hash up in the
`articles` table, returns the existing id on a hit and inserts a fresh row
otherwise.  The table is modelled as a list of rows plus the next
AUTOINCREMENT id. -/

/-- `NewsDatabase._generate_url_hash`: the MD5 hex digest of the exact URL
string (no normalization). -/
def _generate_url_hash (url : String) : String :=
  md5Hex url

/-- The `article_data` dict passed to `add_article`; every field except
`url` is read with `.get(key, default)`. -/
structure ArticleData where
  url : String
  title : Option String
  content : Option String
  summary : Option String
  source : Option String
  relevance_score : Option Int
  word_count : Option Nat
  excerpt : Option String
  domain : Option String
  deriving DecidableEq

/-- One row of the `articles` table. -/
structure ArticleRow where
  id : Nat
  url : String
  url_hash : String
  title : String
  content : String
  summary : String
  source : String
  relevance_score : Int
  word_count : Nat
  excerpt : String
  domain : String
  deriving DecidableEq

/-- The `articles` table plus the next AUTOINCREMENT id. -/
structure DB where
  rows : List ArticleRow
  nextId : Nat
  deriving DecidableEq

/-- A fresh database (first AUTOINCREMENT id is 1). -/
def emptyDB : DB := ⟨[], 1⟩

/-- The row the INSERT statement of `add_article` creates. -/
def mkRow (id : Nat) (url_hash : String) (a : ArticleData) : ArticleRow :=
  ⟨id, a.url, url_hash, a.title.getD "", a.content.getD "", a.summary.getD "",
   a.source.getD "", a.relevance_score.getD 0, a.word_count.getD 0,
   a.excerpt.getD "", a.domain.getD ""⟩

/-- `NewsDatabase.add_article`: return the existing id when a row with the
same `url_hash` exists, otherwise insert a new row. -/
def add_article (db : DB) (a : ArticleData) : Nat × DB :=
  let url_hash := _generate_url_hash a.url
  match db.rows.find? (fun r => r.url_hash == url_hash) with
  | some r => (r.id, db)
  | none => (db.nextId, ⟨db.rows ++ [mkRow db.nextId url_hash a], db.nextId + 1⟩)

/-- Store invariant: every row's hash is the hash of its URL, and hashes
are pairwise distinct (the UNIQUE constraint on `url_hash`). -/
def Inv (db : DB) : Prop :=
  (∀ r ∈ db.rows, r.url_hash = _generate_url_hash r.url) ∧
  (db.rows.map (fun r => r.url_hash)).Nodup

/-- C6: `add_article` preserves the one-row-per-`url_hash` invariant, and
re-adding article data whose URL is already stored returns the existing
row's id and leaves the database (hence the existing row's fields)
unchanged. -/
theorem add_article_idempotent_on_url (db : DB) (a : ArticleData) (hinv : Inv db) :
    Inv (add_article db a).2 ∧
    ∀ r ∈ db.rows, r.url = a.url → add_article db a = (r.id, db) := by
  constructor
  · cases hf : db.rows.find? (fun r => r.url_hash == _generate_url_hash a.url) with
    | some r =>
      have : (add_article db a).2 = db := by
        simp only [add_article]
        rw [hf]
      rw [this]
      exact hinv
    | none =>
      have hrows : (add_article db a).2.rows
          = db.rows ++ [mkRow db.nextId (_generate_url_hash a.url) a] := by
        simp only [add_article]
        rw [hf]
      have hfresh : ∀ r ∈ db.rows, r.url_hash ≠ _generate_url_hash a.url := by
        intro r hr
        have := List.find?_eq_none.mp hf r hr
        simpa using this
      constructor
      · rw [hrows]
        intro r hr
        rcases List.mem_append.mp hr with h1 | h1
        · exact hinv.1 r h1
        · rw [List.mem_singleton.mp h1]
          rfl
      · rw [hrows, List.map_append]
        rw [List.nodup_append]
        refine ⟨hinv.2, List.nodup_singleton _, ?_⟩
        intro x hx hx'
        have hx1 : x = (mkRow db.nextId (_generate_url_hash a.url) a).url_hash := by
          simpa using hx'
        obtain ⟨r, hr, hrx⟩ := List.mem_map.mp hx
        exact hfresh r hr (by rw [hrx.symm] at hx1; exact hx1)
  · intro r hr hurl
    have hh : r.url_hash = _generate_url_hash a.url := by
      rw [hinv.1 r hr, hurl]
    cases hf : db.rows.find? (fun x => x.url_hash == _generate_url_hash a.url) with
    | none =>
      exfalso
      have := List.find?_eq_none.mp hf r hr
      simp [hh] at this
    | some r' =>
      have hr' : r' ∈ db.rows := List.mem_of_find?_eq_some hf
      have hp := List.find?_some hf
      have hhh : r'.url_hash = r.url_hash := by
        rw [hh]
        exact eq_of_beq hp
      have heq : r' = r :=
        List.inj_on_of_nodup_map hinv.2 hr' hr hhh
      simp only [add_article]
      rw [hf, heq]

/-- A fixed article payload around a given URL. -/
def simpleData (u : String) : ArticleData :=
  ⟨u, some "t", some "c", some "", some "Src", some 50, some 100, some "", some ""⟩

set_option maxRecDepth 400000 in
theorem add_article_idempotent_on_url_witness :
    Inv (add_article (add_article emptyDB (simpleData "https://example.com/page")).2
        (simpleData "https://example.com/page")).2 ∧
    add_article (add_article emptyDB (simpleData "https://example.com/page")).2
        (simpleData "https://example.com/page")
      = (1, (add_article emptyDB (simpleData "https://example.com/page")).2) :=
  ⟨(add_article_idempotent_on_url
      (add_article emptyDB (simpleData "https://example.com/page")).2
      (simpleData "https://example.com/page") (by constructor <;> decide)).1,
   (add_article_idempotent_on_url
      (add_article emptyDB (simpleData "https://example.com/page")).2
      (simpleData "https://example.com/page") (by constructor <;> decide)).2
      (mkRow 1 (_generate_url_hash "https://example.com/page")
        (simpleData "https://example.com/page"))
      (by decide) rfl⟩

/-- Adding two URLs with distinct hashes to a fresh store yields two rows
with ids 1 and 2, the exact URLs, and the two hashes. -/
def twoDistinctRows (u1 u2 : String) : Prop :=
  (add_article emptyDB (simpleData u1)).1 = 1 ∧
  (add_article (add_article emptyDB (simpleData u1)).2 (simpleData u2)).1 = 2 ∧
  ((add_article (add_article emptyDB (simpleData u1)).2 (simpleData u2)).2.rows.map
      (fun r => r.url)) = [u1, u2] ∧
  ((add_article (add_article emptyDB (simpleData u1)).2 (simpleData u2)).2.rows.map
      (fun r => r.url_hash)) = [_generate_url_hash u1, _generate_url_hash u2]

/-- C10: `url_hash` is `md5(url.encode()).hexdigest()` of the exact URL
string with no normalization, so any two URLs with distinct digests — in
particular the case/scheme/query/trailing-slash variants checked in the
witness — are stored as two distinct articles with distinct ids. -/
lemma add_article_of_find_none {db : DB} {a : ArticleData}
    (h : db.rows.find? (fun r => r.url_hash == _generate_url_hash a.url) = none) :
    add_article db a
      = (db.nextId, ⟨db.rows ++ [mkRow db.nextId (_generate_url_hash a.url) a],
          db.nextId + 1⟩) := by
  simp only [add_article]
  rw [h]

theorem url_hash_exact_no_normalization (u1 u2 : String)
    (hne : _generate_url_hash u1 ≠ _generate_url_hash u2) :
    twoDistinctRows u1 u2 := by
  have hbeq : ((mkRow 1 (_generate_url_hash u1) (simpleData u1)).url_hash
      == _generate_url_hash (simpleData u2).url) = false := by
    have e1 : (mkRow 1 (_generate_url_hash u1) (simpleData u1)).url_hash
        = _generate_url_hash u1 := rfl
    have e2 : _generate_url_hash (simpleData u2).url = _generate_url_hash u2 := rfl
    rw [e1, e2]
    exact beq_eq_false_iff_ne.mpr hne
  have hfind : ((add_article emptyDB (simpleData u1)).2.rows).find?
      (fun r => r.url_hash == _generate_url_hash (simpleData u2).url) = none := by
    have e3 : (add_article emptyDB (simpleData u1)).2.rows
        = [mkRow 1 (_generate_url_hash u1) (simpleData u1)] := rfl
    rw [e3]
    simp [hbeq]
  have key : add_article (add_article emptyDB (simpleData u1)).2 (simpleData u2)
      = (2, ⟨[mkRow 1 (_generate_url_hash u1) (simpleData u1),
              mkRow 2 (_generate_url_hash u2) (simpleData u2)], 3⟩) := by
    rw [add_article_of_find_none hfind]
    rfl
  refine ⟨rfl, ?_, ?_, ?_⟩ <;> rw [key] <;> rfl

set_option maxRecDepth 400000 in
theorem url_hash_exact_no_normalization_witness :
    twoDistinctRows "https://example.com/page" "https://EXAMPLE.com/page" ∧
    twoDistinctRows "http://example.com/page" "https://example.com/page" ∧
    twoDistinctRows "https://example.com/page" "https://example.com/page?x=1" ∧
    twoDistinctRows "https://example.com/page" "https://example.com/page/" :=
  ⟨url_hash_exact_no_normalization _ _ (by decide),
   url_hash_exact_no_normalization _ _ (by decide),
   url_hash_exact_no_normalization _ _ (by decide),
   url_hash_exact_no_normalization _ _ (by decide)⟩

end NewsDigest
